import Mathlib

/-!
Verification of the task scheduling and execution subsystem of the
browser-automation service: capacity estimation (`api.calculate_max_tasks`),
terminal task records (`queues.execute_task`, `main.execute_task`),
the browser session pool (`SessionPool`), the executor result cache
(`BrowserManager.execute_task`), the priority queue admission order
(`main.process_task_queue` / `run_task`), and the running-task bookkeeping
of `queues.process_queue`.  Each definition is a shallow embedding of the
corresponding Python function; theorems state and settle the specified
properties.
-/

namespace BrowserUse

/-! ### Capacity estimator (api.py, `calculate_max_tasks`)

Python source:
```
def calculate_max_tasks():
    cpu_count = psutil.cpu_count()
    memory = psutil.virtual_memory()
    max_by_cpu = int(cpu_count * 2)
    max_by_memory = int(memory.available / (400 * 1024 * 1024))
    max_tasks = min(max_by_cpu, max_by_memory)
    return min(max_tasks, 32)
```
The environment readings `cpu_count` and `memory.available` are the two
parameters; `int(...)` on a non-negative float is floor, i.e. `Nat`
division. -/

/-- Shallow embedding of `api.calculate_max_tasks`, parametrised by the
values the capacity hint source reports. -/
def calculate_max_tasks (cpu_count available_memory_bytes : Nat) : Nat :=
  let max_by_cpu := cpu_count * 2
  let max_by_memory := available_memory_bytes / (400 * 1024 * 1024)
  let max_tasks := min max_by_cpu max_by_memory
  min max_tasks 32

/-! ### Agent results and task records

`settings.AgentResponse` carries `task, result, success, steps_executed,
videopath`; `queues.execute_task` serialises these five fields with
`json.dumps` into the `result` column of the task row, and serialises the empty
dict (`json.dumps({})`, i.e. the two-character string `"\x7b\x7d"`) when the
execution raised before producing a result. -/

/-- Fields of `settings.AgentResponse` that `queues.execute_task` persists. -/
structure AgentResult where
  task : String
  result : String
  success : Bool
  steps_executed : Nat
  videopath : Option String
deriving Repr, DecidableEq

/-- Rendering of `json.dumps` on an optional string (`null` when absent). -/
def jsonOptStr : Option String → String
  | none => "null"
  | some s => "\"" ++ s ++ "\""

/-- Serialisation of the five-field dict that `queues.execute_task` builds
from an `AgentResponse` (`json.dumps` of that dict). -/
def serializeAgentResult (r : AgentResult) : String :=
  "\x7b\"videopath\": " ++ jsonOptStr r.videopath ++
  ", \"result\": \"" ++ r.result ++
  "\", \"task\": \"" ++ r.task ++
  "\", \"steps_executed\": " ++ toString r.steps_executed ++
  ", \"success\": " ++ (if r.success then "true" else "false") ++ "\x7d"

/-- Result of `json.dumps(\x7b\x7d)`: the empty JSON object. -/
def emptyJsonObject : String := "\x7b\x7d"

/-- Persisted task row (`database.Task` / `models.Task`), restricted to the
columns the scheduling core reads and writes.  Timestamps are abstract
instants (`Nat`). -/
structure TaskRecord where
  id : Nat
  status : String
  result : Option String
  error : Option String
  started_at : Option Nat
  completed_at : Option Nat
deriving Repr, DecidableEq

/-- Outcome of the awaited `browser_manager.execute_task` call inside
`queues.execute_task`: either it returns an `AgentResponse`, or the body
raises with message `e`; `res` is the value of the local variable `result`
at the moment the exception is caught (`None` when the executor call itself
raised, the returned response when a later statement raised). -/
inductive QueueExecOutcome where
  | ok (r : AgentResult)
  | raised (e : String) (res : Option AgentResult)
deriving Repr, DecidableEq

/-- Shallow embedding of the effect of `queues.execute_task` on the task row:
mark running (with `started_at`), then on success mark `completed` and store
the serialised result; on an exception mark `failed`, store the error
message, store the serialised partial result when the local `result` is not
`None` and `json.dumps(\x7b\x7d)` otherwise, and set `completed_at`. -/
def queuesExecuteTask (t : TaskRecord) (outcome : QueueExecOutcome)
    (tStart tEnd : Nat) : TaskRecord :=
  let t1 := { t with status := "running", started_at := some tStart }
  match outcome with
  | .ok r =>
      { t1 with status := "completed",
                result := some (serializeAgentResult r),
                completed_at := some tEnd }
  | .raised e res =>
      { t1 with status := "failed",
                error := some e,
                result := some (match res with
                  | some r => serializeAgentResult r
                  | none => emptyJsonObject),
                completed_at := some tEnd }

/-! ### main.py `execute_task`: dispatch with timeout

```
try:
    result = await asyncio.wait_for(browser_manager.execute_task(...),
                                    timeout=task.timeout)
    task.status = "completed"; task.result = json.dumps(result)
    task.completed_at = datetime.utcnow()
except asyncio.TimeoutError:
    task.status = "failed"; task.error = "Task timeout"
    task.completed_at = datetime.utcnow()
except Exception as e:
    task.status = "failed"; task.error = str(e)
    task.completed_at = datetime.utcnow()
```
The outcome of the executor call is one of: a result within the deadline, a
timeout, or an exception. -/

/-- Outcome of the `asyncio.wait_for` around the executor call in
`main.execute_task`; `completed r` carries the `json.dumps`-serialised
result. -/
inductive MainExecOutcome where
  | completed (r : String)
  | timedOut
  | raised (e : String)
deriving Repr, DecidableEq

/-- Shallow embedding of the effect of `main.execute_task` on the task row. -/
def mainExecuteTask (t : TaskRecord) (outcome : MainExecOutcome)
    (tStart tEnd : Nat) : TaskRecord :=
  let t1 := { t with status := "running", started_at := some tStart }
  match outcome with
  | .completed r =>
      { t1 with status := "completed", result := some r,
                completed_at := some tEnd }
  | .timedOut =>
      { t1 with status := "failed", error := some "Task timeout",
                completed_at := some tEnd }
  | .raised e =>
      { t1 with status := "failed", error := some e,
                completed_at := some tEnd }

/-! ### Session pool (browser.py, `SessionPool`)

A `BrowserSession` holds `last_used` and `is_busy`; the underlying
Playwright handles are irrelevant to pool bookkeeping and are abstracted to
an identity tag `sid` (Python object identity).  Timestamps are `Nat`
instants; `datetime` subtraction on instants with `last_used ≤ now` is `Nat`
subtraction, and for a `last_used` in the future the Python comparison
`negative > timeout` is false just as truncated subtraction gives
`0 > timeout` false. -/

/-- Pool entry modelling `browser.BrowserSession` bookkeeping state. -/
structure PoolSession where
  sid : Nat
  is_busy : Bool
  last_used : Nat
deriving Repr, DecidableEq

/-- Condition under which `_cleanup_inactive_sessions` selects a session for
removal: `not session.is_busy and
(now - session.last_used).total_seconds() > self.session_timeout`. -/
def shouldReclaim (now timeout : Nat) (s : PoolSession) : Bool :=
  !s.is_busy && decide (timeout < now - s.last_used)

/-- Shallow embedding of `SessionPool._cleanup_inactive_sessions`: first
component is the surviving `self.sessions` list, second the closed-and-removed
sessions. -/
def cleanupInactiveSessions (sessions : List PoolSession) (now timeout : Nat) :
    List PoolSession × List PoolSession :=
  (sessions.filter (fun s => !(shouldReclaim now timeout s)),
   sessions.filter (shouldReclaim now timeout))

/-- Scan of `self.sessions` for the first session with `is_busy` false,
marking it busy and refreshing `last_used` (the loop in `get_session`).
Returns the handed-out session and the updated list, or `none` when every
session is busy. -/
def markFirstIdle (now : Nat) : List PoolSession →
    Option (PoolSession × List PoolSession)
  | [] => none
  | s :: rest =>
      if s.is_busy then
        match markFirstIdle now rest with
        | some (t, rest1) => some (t, s :: rest1)
        | none => none
      else
        let t := { s with is_busy := true, last_used := now }
        some (t, t :: rest)

/-- Result of one `get_session` call: reuse of an existing idle session,
creation of a fresh session (`_create_new_session`), or entry into the
busy-wait loop because the pool is full and every session is busy. -/
inductive GetSessionResult where
  | reused (s : PoolSession) (sessions : List PoolSession)
  | created (s : PoolSession) (sessions : List PoolSession)
  | wouldWait (sessions : List PoolSession)
deriving Repr, DecidableEq

/-- Shallow embedding of `SessionPool.get_session` (under the pool lock):
run `_cleanup_inactive_sessions`, hand out the first non-busy session if
any, otherwise create a new busy session when `len(self.sessions) <
self.max_sessions` (appending it, as `_create_new_session` does, with the
fresh identity `freshSid`), otherwise poll until a session frees up. -/
def getSession (sessions : List PoolSession)
    (max_sessions timeout now freshSid : Nat) : GetSessionResult :=
  let cleaned := (cleanupInactiveSessions sessions now timeout).1
  match markFirstIdle now cleaned with
  | some (s, sessions1) => .reused s sessions1
  | none =>
      if cleaned.length < max_sessions then
        let s : PoolSession := ⟨freshSid, true, now⟩
        .created s (cleaned ++ [s])
      else
        .wouldWait cleaned

/-- Session list carried by a `get_session` result. -/
def GetSessionResult.pool : GetSessionResult → List PoolSession
  | .reused _ sessions => sessions
  | .created _ sessions => sessions
  | .wouldWait sessions => sessions

/-- True when the result hands back one of the existing pool sessions. -/
def GetSessionResult.isReused : GetSessionResult → Bool
  | .reused _ _ => true
  | _ => false

/-! ### Executor result cache (browser.py, `BrowserManager.execute_task`)

`SessionPool._cache` is a Python dict from cache keys to
`\x7b"result": ..., "timestamp": ...\x7d`; modelled as an association list with
first-match lookup and in-place overwrite. -/

/-- Entry stored in `SessionPool._cache`. -/
structure CacheEntry where
  result : String
  timestamp : Nat
deriving Repr, DecidableEq

/-- Dict lookup (`cache_key in self._cache` / `self._cache[cache_key]`). -/
def dictGet : List (String × CacheEntry) → String → Option CacheEntry
  | [], _ => none
  | (k1, v) :: rest, k => if k1 = k then some v else dictGet rest k

/-- Dict store `self._cache[cache_key] = v`: overwrite the existing binding
or append a new one. -/
def dictSet : List (String × CacheEntry) → String → CacheEntry →
    List (String × CacheEntry)
  | [], k, v => [(k, v)]
  | (k1, v1) :: rest, k, v =>
      if k1 = k then (k, v) :: rest else (k1, v1) :: dictSet rest k v

/-- Shallow embedding of `SessionPool._cache_key`:
`f"\x7btask\x7d:\x7bjson.dumps(config, sort_keys=True)\x7d"`, with `config`
represented by its sorted-keys JSON serialisation. -/
def cacheKey (task config : String) : String := task ++ ":" ++ config

/-- Value returned by `BrowserManager.execute_task`: a cache hit returns the
stored raw result (`cached_result["result"]`), a fresh success returns the
`\x7b"success": True, "result": result\x7d` wrapper, and a caught exception
returns the `\x7b"success": False, "error": str(e)\x7d` wrapper. -/
inductive ManagerResponse where
  | cachedHit (r : String)
  | succeeded (r : String)
  | errored (e : String)
deriving Repr, DecidableEq

/-- Observable outcome of one `BrowserManager.execute_task` call: the value
returned (a raw cached result, a `\x7b"success": True, "result": ...\x7d`
wrapper, or a `\x7b"success": False, "error": ...\x7d` wrapper), the cache
after the call, and whether the executor ran and a session was acquired. -/
structure ManagerCallOutcome where
  response : ManagerResponse
  cache : List (String × CacheEntry)
  executorInvoked : Bool
  sessionAcquired : Bool
deriving Repr, DecidableEq

/-- Cache probe at the top of `BrowserManager.execute_task`:
`cache_key in self._cache` followed by the strict TTL check
`time.time() - cached_result["timestamp"] < self._cache_ttl`; `some` is a
usable hit, `none` a miss or an expired entry (which stays stored). -/
def cacheLookup (cache : List (String × CacheEntry)) (key : String)
    (ttl tNow : Nat) : Option CacheEntry :=
  match dictGet cache key with
  | some entry => if tNow - entry.timestamp < ttl then some entry else none
  | none => none

/-- Shallow embedding of `BrowserManager.execute_task`.  `tNow` is the
`time.time()` read used for the TTL check, `tDone` the read stored with a
fresh result (taken after the internal execution completes);
`execInternal` is `_execute_task_internal` (raising modelled as
`Except.error`), and `mergeDefaults` the
`\x7b**default_config, **config\x7d` overlay.  The cache key is computed
from the original `config`, before the overlay. -/
def managerExecuteTask (cache : List (String × CacheEntry))
    (task config : String) (ttl tNow tDone : Nat)
    (execInternal : String → String → Except String String)
    (mergeDefaults : String → String) : ManagerCallOutcome :=
  match cacheLookup cache (cacheKey task config) ttl tNow with
  | some entry => ⟨.cachedHit entry.result, cache, false, false⟩
  | none =>
      match execInternal task (mergeDefaults config) with
      | .ok r =>
          ⟨.succeeded r, dictSet cache (cacheKey task config) ⟨r, tDone⟩,
            true, true⟩
      | .error e =>
          ⟨.errored e, cache, true, true⟩

/-! ### Priority queue (main.py)

`run_task` enqueues `(-db_task.priority, db_task.id)` into a
`queue.PriorityQueue`; `process_task_queue` repeatedly takes the entry with
the least tuple (Python tuple comparison is lexicographic).  The queue is
modelled functionally as a list kept sorted by the lexicographic order on
`(Int × Nat)`, with `put` as ordered insertion; `get` takes the head, so the
admission order is the sorted list itself. -/

/-- Lexicographic order on `(neg_priority, task_id)` entries, exactly
the tuple comparison Python uses for `PriorityQueue` entries. -/
def entryLe (a b : Int × Nat) : Prop :=
  a.1 < b.1 ∨ (a.1 = b.1 ∧ a.2 ≤ b.2)

instance : DecidableRel entryLe := fun a b => by
  unfold entryLe; infer_instance

instance : IsTotal (Int × Nat) entryLe where
  total a b := by
    rcases lt_trichotomy a.1 b.1 with h | h | h
    · exact Or.inl (Or.inl h)
    · rcases Nat.le_total a.2 b.2 with h2 | h2
      · exact Or.inl (Or.inr ⟨h, h2⟩)
      · exact Or.inr (Or.inr ⟨h.symm, h2⟩)
    · exact Or.inr (Or.inl h)

instance : IsTrans (Int × Nat) entryLe where
  trans a b c hab hbc := by
    rcases hab with h1 | ⟨e1, l1⟩
    · rcases hbc with h2 | ⟨e2, _⟩
      · exact Or.inl (h1.trans h2)
      · exact Or.inl (e2 ▸ h1)
    · rcases hbc with h2 | ⟨e2, l2⟩
      · exact Or.inl (e1 ▸ h2)
      · exact Or.inr ⟨e1.trans e2, l1.trans l2⟩

/-- Entry built by `main.run_task`:
`task_queue.put((-db_task.priority, db_task.id))`. -/
def runTaskEntry (priority : Int) (id : Nat) : Int × Nat := (-priority, id)

/-- Functional model of `PriorityQueue.put`: ordered insertion keeping the
backing list sorted by `entryLe`, so that `get` (head) always yields the
least entry, as `heapq` guarantees. -/
def pqPut (q : List (Int × Nat)) (e : Int × Nat) : List (Int × Nat) :=
  q.orderedInsert entryLe e

/-- Queue contents after enqueueing submissions `(priority, id)` in order
via `run_task`; reading the resulting list front to back is the order in
which `process_task_queue` admits them. -/
def admissionQueue (submissions : List (Int × Nat)) : List (Int × Nat) :=
  submissions.foldl (fun q t => pqPut q (runTaskEntry t.1 t.2)) []

/-- Task ids in admission order for a list of `(priority, id)` submissions. -/
def admissionOrder (submissions : List (Int × Nat)) : List Nat :=
  (admissionQueue submissions).map Prod.snd

/-! ### Scheduling loop bookkeeping (queues.py, `process_queue`)

State: the `asyncio.Queue` of dispatched-but-not-started task ids and the
`running_tasks` set.  One loop iteration enqueues pending ids not already
tracked (`if task.id in running_tasks: continue ... await task_queue.put`),
then, only when `len(running_tasks) < MAX_CONCURRENT_TASKS`, dequeues one id,
adds it to `running_tasks`, and runs it; the `finally` of `execute_task` removes
the id again when the run ends.  These three observable state changes are the
transition relation below. -/

/-- In-memory scheduler state of `queues.process_queue`. -/
structure QueueState where
  queue : List Nat
  running : Finset Nat
deriving DecidableEq

/-- Transitions of the `process_queue` loop, parametrised by the capacity
`MAX_CONCURRENT_TASKS`:
`enqueue` puts a pending id not tracked in `running_tasks` onto the task
queue; `dispatch` pops the queue head and adds it to `running_tasks`, guarded by
`len(running_tasks) < MAX_CONCURRENT_TASKS`; `finish` is the removal in
the `finally` block of `execute_task` when a run ends. -/
inductive QueueStep (C : Nat) : QueueState → QueueState → Prop where
  | enqueue (s : QueueState) (id : Nat) (h : id ∉ s.running) :
      QueueStep C s ⟨s.queue ++ [id], s.running⟩
  | dispatch (s : QueueState) (id : Nat) (rest : List Nat)
      (hq : s.queue = id :: rest) (hc : s.running.card < C) :
      QueueStep C s ⟨rest, insert id s.running⟩
  | finish (s : QueueState) (id : Nat) (h : id ∈ s.running) :
      QueueStep C s ⟨s.queue, s.running.erase id⟩

/-- Reachability through `process_queue` loop transitions. -/
def QueueReachable (C : Nat) : QueueState → QueueState → Prop :=
  Relation.ReflTransGen (QueueStep C)

/-! ### Python set removal (queues.py error cleanup)

`set.remove(x)` deletes `x` and raises `KeyError` when `x` is absent;
modelled as an `Option`-returning operation, `none` being the raise. -/

/-- Python `set.remove`: `some` of the shrunken set, or `none` (KeyError)
when the element is absent. -/
def pySetRemove (s : Finset Nat) (x : Nat) : Option (Finset Nat) :=
  if x ∈ s then some (s.erase x) else none

/-- Cleanup sequence on the exception path for a task id: `process_queue`
adds `task_id` to `running_tasks`, the `finally` of `execute_task` removes
it, then the `except` handler of `process_queue` calls
`running_tasks.remove(task_id)`
a second time.  Returns the outcomes of the two removals in order. -/
def errorPathCleanup (s : Finset Nat) (task_id : Nat) :
    Option (Finset Nat) × Option (Finset Nat) :=
  let tracked := insert task_id s
  match pySetRemove tracked task_id with
  | some afterFinally => (some afterFinally, pySetRemove afterFinally task_id)
  | none => (none, none)

/-! ## Theorems -/

/-- C1 counterexample: with one CPU and no available memory the capacity
function returns `0`, refuting the claim that the returned value is always
an integer at least `1`. -/
theorem calculate_max_tasks_not_positive :
    calculate_max_tasks 1 0 = 0 ∧ ¬ 1 ≤ calculate_max_tasks 1 0 := by
  decide

/-- C1 (amended): for every reported `cpu_count` and `available_memory_bytes`
the capacity function returns `min(cpu_count × 2, available_memory / 400MB,
32)` (a natural number, with floor division), and the value is at least `1`
whenever there is at least one CPU and at least 400 MB of available
memory. -/
theorem calculate_max_tasks_formula (cpu_count available_memory_bytes : Nat) :
    calculate_max_tasks cpu_count available_memory_bytes =
      min (min (cpu_count * 2) (available_memory_bytes / (400 * 1024 * 1024))) 32 ∧
    (1 ≤ cpu_count → 400 * 1024 * 1024 ≤ available_memory_bytes →
      1 ≤ calculate_max_tasks cpu_count available_memory_bytes) := by
  refine ⟨rfl, fun hcpu hmem => ?_⟩
  have h1 : 1 ≤ cpu_count * 2 := by omega
  have h2 : 1 ≤ available_memory_bytes / (400 * 1024 * 1024) :=
    (Nat.one_le_div_iff (by norm_num)).mpr hmem
  simp only [calculate_max_tasks, Nat.le_min]
  exact ⟨⟨h1, h2⟩, by norm_num⟩

/-- C1 witness: a host with 4 CPUs and 4 GiB available yields a capacity of
at least one task. -/
theorem calculate_max_tasks_formula_witness :
    1 ≤ calculate_max_tasks 4 4294967296 :=
  (calculate_max_tasks_formula 4 4294967296).2 (by norm_num) (by norm_num)

/-- C2 counterexample: a task whose execution raises `"boom"` before the
executor produced a result is persisted with status `failed`, error
`"boom"`, and a non-null result column holding the empty JSON object — the
terminal record carries both a result and an error, refuting "never
both". -/
theorem failed_task_carries_result :
    (queuesExecuteTask ⟨1, "pending", none, none, none, none⟩
        (.raised "boom" none) 1 2).status = "failed" ∧
    (queuesExecuteTask ⟨1, "pending", none, none, none, none⟩
        (.raised "boom" none) 1 2).error = some "boom" ∧
    (queuesExecuteTask ⟨1, "pending", none, none, none, none⟩
        (.raised "boom" none) 1 2).result = some emptyJsonObject := by
  refine ⟨rfl, rfl, rfl⟩

/-- C2 (amended): a task persisted as `completed` stores the serialised
result and leaves the error column unchanged (so no error for a task that
had none), while a task persisted as `failed` stores the error message and
additionally always stores a result payload — the serialised partial result
when one exists and the empty JSON object otherwise — so terminal failed
records carry both columns. -/
theorem queuesExecuteTask_terminal_record (t : TaskRecord) (r : AgentResult)
    (e : String) (res : Option AgentResult) (ts te : Nat) :
    ((queuesExecuteTask t (.ok r) ts te).status = "completed" ∧
     (queuesExecuteTask t (.ok r) ts te).result = some (serializeAgentResult r) ∧
     (queuesExecuteTask t (.ok r) ts te).error = t.error ∧
     (queuesExecuteTask t (.ok r) ts te).completed_at = some te) ∧
    ((queuesExecuteTask t (.raised e res) ts te).status = "failed" ∧
     (queuesExecuteTask t (.raised e res) ts te).error = some e ∧
     (queuesExecuteTask t (.raised e res) ts te).result =
       some (match res with
         | some pr => serializeAgentResult pr
         | none => emptyJsonObject) ∧
     (queuesExecuteTask t (.raised e res) ts te).completed_at = some te) := by
  exact ⟨⟨rfl, rfl, rfl, rfl⟩, ⟨rfl, rfl, rfl, rfl⟩⟩

/-- C7: when the executor call does not return within the configured task timeout,
`main.execute_task` marks the task `failed`, writes the timeout-classified
error message `"Task timeout"`, writes `completed_at`, leaves the result
column exactly as it was (no result of the abandoned execution is recorded),
and the status is not `completed`. -/
theorem mainExecuteTask_timeout (t : TaskRecord) (ts te : Nat) :
    (mainExecuteTask t .timedOut ts te).status = "failed" ∧
    (mainExecuteTask t .timedOut ts te).error = some "Task timeout" ∧
    (mainExecuteTask t .timedOut ts te).completed_at = some te ∧
    (mainExecuteTask t .timedOut ts te).result = t.result ∧
    (mainExecuteTask t .timedOut ts te).status ≠ "completed" := by
  exact ⟨rfl, rfl, rfl, rfl, by simp [mainExecuteTask]⟩

/-- C9: on the exception path the cleanup runs twice — the `finally`
removal in `execute_task` succeeds (the id was tracked), and the second
`running_tasks.remove` in the `process_queue` handler then raises `KeyError`
(`none`): for every prior tracked set and task id, the second removal fails
on an element that is no longer present. -/
theorem errorPathCleanup_keyerror (s : Finset Nat) (task_id : Nat) :
    errorPathCleanup s task_id =
      (some ((insert task_id s).erase task_id), none) := by
  simp [errorPathCleanup, pySetRemove]

/-- C5: one invocation of `_cleanup_inactive_sessions` closes and removes
exactly the sessions that are not busy and whose idle time strictly exceeds
`session_timeout`; a busy session is never removed, and a session idle for
no more than the timeout stays in the pool. -/
theorem cleanupInactiveSessions_exact (sessions : List PoolSession)
    (now timeout : Nat) (s : PoolSession) :
    (s ∈ (cleanupInactiveSessions sessions now timeout).2 ↔
      s ∈ sessions ∧ s.is_busy = false ∧ timeout < now - s.last_used) ∧
    (s ∈ sessions → s.is_busy = true →
      s ∈ (cleanupInactiveSessions sessions now timeout).1) ∧
    (s ∈ sessions → now - s.last_used ≤ timeout →
      s ∈ (cleanupInactiveSessions sessions now timeout).1) := by
  refine ⟨?_, ?_, ?_⟩
  · simp [cleanupInactiveSessions, shouldReclaim, List.mem_filter]
  · intro hmem hbusy
    simp [cleanupInactiveSessions, shouldReclaim, List.mem_filter, hmem, hbusy]
  · intro hmem hidle
    simp [cleanupInactiveSessions, shouldReclaim, List.mem_filter, hmem]
    omega

/-- C5 witness: with `now = 400` and `timeout = 300`, a non-busy session
last used at `0` is removed while a busy session last used at `0` stays. -/
theorem cleanupInactiveSessions_exact_witness :
    (⟨1, false, 0⟩ : PoolSession) ∈
      (cleanupInactiveSessions [⟨1, false, 0⟩, ⟨2, true, 0⟩] 400 300).2 ∧
    (⟨2, true, 0⟩ : PoolSession) ∈
      (cleanupInactiveSessions [⟨1, false, 0⟩, ⟨2, true, 0⟩] 400 300).1 :=
  ⟨(cleanupInactiveSessions_exact [⟨1, false, 0⟩, ⟨2, true, 0⟩] 400 300
      ⟨1, false, 0⟩).1.mpr ⟨by simp, rfl, by decide⟩,
   (cleanupInactiveSessions_exact [⟨1, false, 0⟩, ⟨2, true, 0⟩] 400 300
      ⟨2, true, 0⟩).2.1 (by simp) rfl⟩

/-! Dict lemmas for the result cache. -/

theorem dictGet_dictSet_self (l : List (String × CacheEntry)) (k : String)
    (v : CacheEntry) : dictGet (dictSet l k v) k = some v := by
  induction l with
  | nil => simp [dictGet, dictSet]
  | cons kv rest ih =>
      by_cases h : kv.1 = k
      · simp [dictGet, dictSet, h]
      · simp [dictGet, dictSet, h, ih]

theorem dictGet_dictSet_ne (l : List (String × CacheEntry)) (k k1 : String)
    (v : CacheEntry) (h : k1 ≠ k) :
    dictGet (dictSet l k v) k1 = dictGet l k1 := by
  induction l with
  | nil =>
      simp only [dictSet, dictGet]
      rw [if_neg (fun he => h he.symm)]
  | cons kv rest ih =>
      by_cases hk : kv.1 = k
      · simp only [dictSet, if_pos hk, dictGet]
        rw [if_neg (fun he => h he.symm),
            if_neg (by rw [hk]; exact fun he => h he.symm)]
      · simp only [dictSet, if_neg hk, dictGet, ih]

theorem length_dictSet (l : List (String × CacheEntry)) (k : String)
    (v : CacheEntry) : l.length ≤ (dictSet l k v).length := by
  induction l with
  | nil => simp [dictSet]
  | cons kv rest ih =>
      by_cases hk : kv.1 = k
      · simp [dictSet, hk]
      · simp only [dictSet, if_neg hk, List.length_cons]
        omega

/-! Equation lemmas for the three branches of `managerExecuteTask`. -/

theorem managerExecuteTask_of_hit (cache : List (String × CacheEntry))
    (task config : String) (ttl tNow tDone : Nat)
    (execInternal : String → String → Except String String)
    (mergeDefaults : String → String) (entry : CacheEntry)
    (h : cacheLookup cache (cacheKey task config) ttl tNow = some entry) :
    managerExecuteTask cache task config ttl tNow tDone execInternal
      mergeDefaults = ⟨.cachedHit entry.result, cache, false, false⟩ := by
  simp [managerExecuteTask, h]

theorem managerExecuteTask_of_miss_ok (cache : List (String × CacheEntry))
    (task config : String) (ttl tNow tDone : Nat)
    (execInternal : String → String → Except String String)
    (mergeDefaults : String → String) (r : String)
    (h : cacheLookup cache (cacheKey task config) ttl tNow = none)
    (hex : execInternal task (mergeDefaults config) = .ok r) :
    managerExecuteTask cache task config ttl tNow tDone execInternal
      mergeDefaults =
      ⟨.succeeded r, dictSet cache (cacheKey task config) ⟨r, tDone⟩,
        true, true⟩ := by
  simp [managerExecuteTask, h, hex]

theorem managerExecuteTask_of_miss_error (cache : List (String × CacheEntry))
    (task config : String) (ttl tNow tDone : Nat)
    (execInternal : String → String → Except String String)
    (mergeDefaults : String → String) (e : String)
    (h : cacheLookup cache (cacheKey task config) ttl tNow = none)
    (hex : execInternal task (mergeDefaults config) = .error e) :
    managerExecuteTask cache task config ttl tNow tDone execInternal
      mergeDefaults = ⟨.errored e, cache, true, true⟩ := by
  simp [managerExecuteTask, h, hex]

/-- C10: one `BrowserManager.execute_task` call never removes a cache
entry: every key present before is present after, the cache size never
decreases, and every key other than the cache key of the call (in particular
every expired entry under a different key) is bound exactly as before. -/
theorem managerExecuteTask_cache_monotone (cache : List (String × CacheEntry))
    (task config : String) (ttl tNow tDone : Nat)
    (execInternal : String → String → Except String String)
    (mergeDefaults : String → String) :
    (∀ k, (dictGet cache k).isSome →
      (dictGet (managerExecuteTask cache task config ttl tNow tDone
        execInternal mergeDefaults).cache k).isSome) ∧
    cache.length ≤ (managerExecuteTask cache task config ttl tNow tDone
        execInternal mergeDefaults).cache.length ∧
    (∀ k, k ≠ cacheKey task config →
      dictGet (managerExecuteTask cache task config ttl tNow tDone
        execInternal mergeDefaults).cache k = dictGet cache k) := by
  cases hget : cacheLookup cache (cacheKey task config) ttl tNow with
  | some entry =>
      rw [managerExecuteTask_of_hit cache task config ttl tNow tDone
        execInternal mergeDefaults entry hget]
      exact ⟨fun k h => h, le_refl _, fun k _ => rfl⟩
  | none =>
      cases hex : execInternal task (mergeDefaults config) with
      | ok r =>
          rw [managerExecuteTask_of_miss_ok cache task config ttl tNow tDone
            execInternal mergeDefaults r hget hex]
          refine ⟨fun k h => ?_, length_dictSet _ _ _, fun k hk => ?_⟩
          · by_cases hkk : k = cacheKey task config
            · subst hkk; simp [dictGet_dictSet_self]
            · rwa [dictGet_dictSet_ne _ _ _ _ hkk]
          · exact dictGet_dictSet_ne _ _ _ _ hk
      | error e =>
          rw [managerExecuteTask_of_miss_error cache task config ttl tNow
            tDone execInternal mergeDefaults e hget hex]
          exact ⟨fun k h => h, le_refl _, fun k _ => rfl⟩

/-- C10 witness: a call under key `"b:y"` keeps the previously stored entry
for key `"a:x"`, does not shrink the cache, and leaves the old binding
untouched. -/
theorem managerExecuteTask_cache_monotone_witness :
    (dictGet (managerExecuteTask [("a:x", ⟨"r0", 0⟩)] "b" "y" 300 1000 1001
        (fun _ _ => Except.ok "r1") (fun c => c)).cache "a:x").isSome ∧
    dictGet (managerExecuteTask [("a:x", ⟨"r0", 0⟩)] "b" "y" 300 1000 1001
        (fun _ _ => Except.ok "r1") (fun c => c)).cache "a:x" =
      dictGet [("a:x", ⟨"r0", 0⟩)] "a:x" :=
  ⟨(managerExecuteTask_cache_monotone [("a:x", ⟨"r0", 0⟩)] "b" "y" 300 1000
      1001 (fun _ _ => Except.ok "r1") (fun c => c)).1 "a:x" (by decide),
   (managerExecuteTask_cache_monotone [("a:x", ⟨"r0", 0⟩)] "b" "y" 300 1000
      1001 (fun _ _ => Except.ok "r1") (fun c => c)).2.2 "a:x" (by decide)⟩

/-- C3: when a first `execute_task` call misses the cache and the internal
execution succeeds, a second call with the identical `(task, config)` whose
TTL probe happens strictly within `_cache_ttl` of the completion time
stored by the first call
completion invokes the executor zero further times, acquires no session, and
returns exactly the result stored by the first call; across both calls the
executor ran only once. -/
theorem cache_short_circuit (cache : List (String × CacheEntry))
    (task config : String) (ttl tNow1 tDone1 tNow2 tDone2 : Nat)
    (execInternal : String → String → Except String String)
    (mergeDefaults : String → String) (r : String)
    (hmiss : dictGet cache (cacheKey task config) = none)
    (hexec : execInternal task (mergeDefaults config) = .ok r)
    (httl : tNow2 - tDone1 < ttl) :
    (managerExecuteTask cache task config ttl tNow1 tDone1 execInternal
        mergeDefaults).executorInvoked = true ∧
    (managerExecuteTask cache task config ttl tNow1 tDone1 execInternal
        mergeDefaults).response = .succeeded r ∧
    (managerExecuteTask (managerExecuteTask cache task config ttl tNow1
          tDone1 execInternal mergeDefaults).cache
        task config ttl tNow2 tDone2 execInternal mergeDefaults) =
      ⟨.cachedHit r,
       (managerExecuteTask cache task config ttl tNow1 tDone1 execInternal
          mergeDefaults).cache, false, false⟩ := by
  have hlk1 : cacheLookup cache (cacheKey task config) ttl tNow1 = none := by
    simp [cacheLookup, hmiss]
  have hfirst := managerExecuteTask_of_miss_ok cache task config ttl tNow1
    tDone1 execInternal mergeDefaults r hlk1 hexec
  refine ⟨by rw [hfirst], by rw [hfirst], ?_⟩
  have hstored : dictGet (managerExecuteTask cache task config ttl tNow1
      tDone1 execInternal mergeDefaults).cache (cacheKey task config) =
      some ⟨r, tDone1⟩ := by
    rw [hfirst]
    exact dictGet_dictSet_self cache (cacheKey task config) ⟨r, tDone1⟩
  have hlk2 : cacheLookup (managerExecuteTask cache task config ttl tNow1
      tDone1 execInternal mergeDefaults).cache (cacheKey task config) ttl
      tNow2 = some ⟨r, tDone1⟩ := by
    simp [cacheLookup, hstored, httl]
  exact managerExecuteTask_of_hit _ task config ttl tNow2 tDone2
    execInternal mergeDefaults ⟨r, tDone1⟩ hlk2

/-- C3 witness: an empty cache, a stub executor returning `"res"`, and a
second call 10 seconds after the first completes (TTL 300) take the
short-circuit path. -/
theorem cache_short_circuit_witness :
    (managerExecuteTask [] "navigate:u" "c" 300 0 10
        (fun _ _ => Except.ok "res") (fun c => c)).executorInvoked = true ∧
    (managerExecuteTask [] "navigate:u" "c" 300 0 10
        (fun _ _ => Except.ok "res") (fun c => c)).response =
      .succeeded "res" ∧
    (managerExecuteTask (managerExecuteTask [] "navigate:u" "c" 300 0 10
          (fun _ _ => Except.ok "res") (fun c => c)).cache
        "navigate:u" "c" 300 20 25 (fun _ _ => Except.ok "res")
        (fun c => c)) =
      ⟨.cachedHit "res",
       (managerExecuteTask [] "navigate:u" "c" 300 0 10
          (fun _ _ => Except.ok "res") (fun c => c)).cache, false, false⟩ :=
  cache_short_circuit [] "navigate:u" "c" 300 0 10 20 25
    (fun _ _ => Except.ok "res") (fun c => c) "res" rfl rfl (by decide)

/-- A single `process_queue` transition keeps the tracked running set within
the capacity bound. -/
theorem queueStep_preserves_card_le {C : Nat} {s s1 : QueueState}
    (h : QueueStep C s s1) (hle : s.running.card ≤ C) :
    s1.running.card ≤ C := by
  cases h with
  | enqueue id hid => exact hle
  | dispatch id rest hq hc =>
      calc (insert id s.running).card ≤ s.running.card + 1 :=
            Finset.card_insert_le id s.running
        _ ≤ C := hc
  | finish id hid =>
      exact le_trans (Finset.card_erase_le) hle

/-- C4: starting from a state with no running tasks, every state the
`process_queue` loop can reach tracks at most `MAX_CONCURRENT_TASKS` tasks
as running, and a task is dequeued from the task queue (a `dispatch`
transition, the only queue-consuming one) only when the running set is
strictly below the capacity. -/
theorem running_tasks_bounded (C : Nat) :
    (∀ (q0 : List Nat) (s : QueueState),
      QueueReachable C ⟨q0, ∅⟩ s → s.running.card ≤ C) ∧
    (∀ s s1 : QueueState, QueueStep C s s1 →
      s1.queue.length < s.queue.length → s.running.card < C) := by
  constructor
  · intro q0 s h
    induction h with
    | refl => simp
    | tail _ hstep ih => exact queueStep_preserves_card_le hstep ih
  · intro s s1 hstep hlen
    cases hstep with
    | enqueue id hid => simp at hlen
    | dispatch id rest hq hc => exact hc
    | finish id hid => simp at hlen

/-- C4 witness: with capacity 1, the empty initial state is reachable and
within the bound, and the concrete dispatch step that dequeues task 7 from
state `⟨[7], ∅⟩` certifies that dequeueing happened strictly below the
capacity. -/
theorem running_tasks_bounded_witness :
    (⟨[], (∅ : Finset Nat)⟩ : QueueState).running.card ≤ 1 ∧
    (⟨[7], (∅ : Finset Nat)⟩ : QueueState).running.card < 1 :=
  ⟨(running_tasks_bounded 1).1 [] ⟨[], ∅⟩ Relation.ReflTransGen.refl,
   (running_tasks_bounded 1).2 ⟨[7], ∅⟩ ⟨[], insert 7 ∅⟩
     (QueueStep.dispatch ⟨[7], ∅⟩ 7 [] rfl (by simp)) (by simp)⟩

/-- Folding `pqPut` over submissions preserves sortedness of the backing
list (the priority-queue invariant). -/
theorem foldl_pqPut_sorted (subs : List (Int × Nat)) :
    ∀ q : List (Int × Nat), q.Sorted entryLe →
      (subs.foldl (fun q t => pqPut q (runTaskEntry t.1 t.2)) q).Sorted
        entryLe := by
  induction subs with
  | nil => intro q hq; exact hq
  | cons t rest ih =>
      intro q hq
      exact ih _ (List.Sorted.orderedInsert (runTaskEntry t.1 t.2) q hq)

/-- Folding `pqPut` over submissions yields a permutation of the initial
queue plus all enqueued entries: nothing is lost or duplicated. -/
theorem foldl_pqPut_perm (subs : List (Int × Nat)) :
    ∀ q : List (Int × Nat),
      (subs.foldl (fun q t => pqPut q (runTaskEntry t.1 t.2)) q).Perm
        (q ++ subs.map (fun t => runTaskEntry t.1 t.2)) := by
  induction subs with
  | nil => intro q; simp
  | cons t rest ih =>
      intro q
      have h1 := ih (pqPut q (runTaskEntry t.1 t.2))
      have h2 : (pqPut q (runTaskEntry t.1 t.2) ++
          rest.map (fun t => runTaskEntry t.1 t.2)).Perm
          (runTaskEntry t.1 t.2 ::
            (q ++ rest.map (fun t => runTaskEntry t.1 t.2))) :=
        (List.perm_orderedInsert entryLe (runTaskEntry t.1 t.2) q).append
          (List.Perm.refl _)
      have h3 : (q ++ runTaskEntry t.1 t.2 ::
          rest.map (fun t => runTaskEntry t.1 t.2)).Perm
          (runTaskEntry t.1 t.2 ::
            (q ++ rest.map (fun t => runTaskEntry t.1 t.2))) :=
        List.perm_middle
      simpa using (h1.trans h2).trans h3.symm

/-- C8: the priority queue admits every submission exactly once, in the
lexicographic order of `(-priority, task_id)` — which is priority
descending, ties broken by ascending id (creation order); in particular
priorities `[1, 5, 3]` submitted as ids `[1, 2, 3]` are admitted in id
order `[2, 3, 1]`, i.e. priorities `[5, 3, 1]`. -/
theorem priority_admission_order :
    (∀ subs : List (Int × Nat),
      (admissionQueue subs).Sorted entryLe ∧
      (admissionQueue subs).Perm
        (subs.map (fun t => runTaskEntry t.1 t.2))) ∧
    (∀ (p1 : Int) (i1 : Nat) (p2 : Int) (i2 : Nat),
      entryLe (runTaskEntry p1 i1) (runTaskEntry p2 i2) ↔
        (p2 < p1 ∨ (p1 = p2 ∧ i1 ≤ i2))) ∧
    admissionOrder [(1, 1), (5, 2), (3, 3)] = [2, 3, 1] := by
  refine ⟨fun subs => ⟨?_, ?_⟩, fun p1 i1 p2 i2 => ?_, ?_⟩
  · exact foldl_pqPut_sorted subs [] List.sorted_nil
  · simpa using foldl_pqPut_perm subs []
  · simp only [entryLe, runTaskEntry]
    omega
  · decide

/-- The scan in `get_session` finds no session exactly when every session
in the list is busy. -/
theorem markFirstIdle_eq_none_iff (now : Nat) (l : List PoolSession) :
    markFirstIdle now l = none ↔ ∀ s ∈ l, s.is_busy = true := by
  induction l with
  | nil => simp [markFirstIdle]
  | cons s rest ih =>
      by_cases hb : s.is_busy
      · cases hm : markFirstIdle now rest with
        | some p =>
            have hnotall : ¬ ∀ t ∈ rest, t.is_busy = true := fun hall => by
              rw [ih.mpr hall] at hm
              exact Option.noConfusion hm
            simp only [markFirstIdle, hb, if_true, hm]
            constructor
            · intro hc; exact absurd hc (by simp)
            · intro hall
              exact absurd (fun t ht => hall t (List.mem_cons_of_mem s ht))
                hnotall
        | none =>
            simp only [markFirstIdle, hb, if_true, hm]
            constructor
            · intro _ t ht
              rcases List.mem_cons.mp ht with h1 | h1
              · subst h1; exact hb
              · exact ih.mp hm t h1
            · intro _; trivial
      · simp only [markFirstIdle, hb, if_false]
        constructor
        · intro h; exact absurd h (by simp)
        · intro hall
          exact absurd (hall s (by simp)) (by simpa using hb)

/-- A successful scan hands out a previously non-busy session from the
list, marked busy with a refreshed `last_used`, and does not change the
number of pooled sessions. -/
theorem markFirstIdle_some_spec (now : Nat) (l : List PoolSession)
    (t : PoolSession) (l1 : List PoolSession)
    (h : markFirstIdle now l = some (t, l1)) :
    t.is_busy = true ∧ t.last_used = now ∧
    (∃ s0 ∈ l, s0.is_busy = false ∧ s0.sid = t.sid) ∧
    l1.length = l.length := by
  induction l generalizing t l1 with
  | nil => simp [markFirstIdle] at h
  | cons s rest ih =>
      by_cases hb : s.is_busy
      · cases hm : markFirstIdle now rest with
        | some p =>
            rw [markFirstIdle, if_pos hb, hm] at h
            obtain ⟨ht, hrest⟩ := Prod.mk.injEq .. ▸ Option.some.injEq .. ▸ h
            obtain ⟨h1, h2, ⟨s0, hs0, hb0, hsid⟩, h4⟩ :=
              ih p.1 p.2 (by rw [hm])
            subst ht
            refine ⟨h1, h2, ⟨s0, by simp [hs0], hb0, hsid⟩, ?_⟩
            rw [← hrest]
            simp [h4]
        | none => rw [markFirstIdle, if_pos hb, hm] at h; exact absurd h (by simp)
      · rw [markFirstIdle, if_neg hb] at h
        obtain ⟨ht, hrest⟩ := Prod.mk.injEq .. ▸ Option.some.injEq .. ▸ h
        subst ht
        refine ⟨rfl, rfl, ⟨s, by simp, by simpa using hb, rfl⟩, ?_⟩
        rw [← hrest]
        simp

/-- C6 counterexample: a pool holding one non-busy session that has sat
idle beyond the timeout.  A non-busy session exists in the pool, yet
`get_session` does not return it: the reclamation sweep at the top of
`get_session` closes it first and a brand-new session is created instead,
refuting the claim that an existing previously-non-busy session is returned
whenever one exists. -/
theorem getSession_skips_expired_idle :
    (∃ s ∈ [(⟨7, false, 0⟩ : PoolSession)], s.is_busy = false) ∧
    (getSession [⟨7, false, 0⟩] 5 300 1000 8).isReused = false ∧
    getSession [⟨7, false, 0⟩] 5 300 1000 8 =
      .created ⟨8, true, 1000⟩ [⟨8, true, 1000⟩] := by
  refine ⟨⟨⟨7, false, 0⟩, by simp⟩, by decide, by decide⟩

/-! Equation lemmas for the three branches of `getSession`. -/

theorem getSession_of_found (sessions : List PoolSession)
    (max_sessions timeout now freshSid : Nat) (t : PoolSession)
    (l1 : List PoolSession)
    (h : markFirstIdle now (cleanupInactiveSessions sessions now timeout).1 =
      some (t, l1)) :
    getSession sessions max_sessions timeout now freshSid = .reused t l1 := by
  simp [getSession, h]

theorem getSession_of_allbusy_create (sessions : List PoolSession)
    (max_sessions timeout now freshSid : Nat)
    (h : markFirstIdle now (cleanupInactiveSessions sessions now timeout).1 =
      none)
    (hc : (cleanupInactiveSessions sessions now timeout).1.length <
      max_sessions) :
    getSession sessions max_sessions timeout now freshSid =
      .created ⟨freshSid, true, now⟩
        ((cleanupInactiveSessions sessions now timeout).1 ++
          [⟨freshSid, true, now⟩]) := by
  simp [getSession, h, hc]

theorem getSession_of_allbusy_full (sessions : List PoolSession)
    (max_sessions timeout now freshSid : Nat)
    (h : markFirstIdle now (cleanupInactiveSessions sessions now timeout).1 =
      none)
    (hc : ¬ (cleanupInactiveSessions sessions now timeout).1.length <
      max_sessions) :
    getSession sessions max_sessions timeout now freshSid =
      .wouldWait (cleanupInactiveSessions sessions now timeout).1 := by
  simp [getSession, h, hc]

/-- C6 (amended): `get_session` first reclaims idle-expired sessions; among
the surviving sessions it returns the first one whose busy flag was false,
marked busy before being handed out; when every survivor is busy it creates
a new busy session exactly when the post-reclamation count is strictly
below `max_sessions`, and otherwise waits; and when the pool starts within
its bound, the session list never grows beyond `max_sessions`. -/
theorem getSession_correct (sessions : List PoolSession)
    (max_sessions timeout now freshSid : Nat)
    (hlen : sessions.length ≤ max_sessions) :
    (getSession sessions max_sessions timeout now freshSid).pool.length ≤
      max_sessions ∧
    ((∃ s ∈ (cleanupInactiveSessions sessions now timeout).1,
        s.is_busy = false) →
      ∃ t pool1, getSession sessions max_sessions timeout now freshSid =
          .reused t pool1 ∧ t.is_busy = true ∧ t.last_used = now ∧
        ∃ s0 ∈ (cleanupInactiveSessions sessions now timeout).1,
          s0.is_busy = false ∧ s0.sid = t.sid) ∧
    ((∀ s ∈ (cleanupInactiveSessions sessions now timeout).1,
        s.is_busy = true) →
      (cleanupInactiveSessions sessions now timeout).1.length <
          max_sessions →
      getSession sessions max_sessions timeout now freshSid =
        .created ⟨freshSid, true, now⟩
          ((cleanupInactiveSessions sessions now timeout).1 ++
            [⟨freshSid, true, now⟩])) ∧
    ((∀ s ∈ (cleanupInactiveSessions sessions now timeout).1,
        s.is_busy = true) →
      ¬ (cleanupInactiveSessions sessions now timeout).1.length <
          max_sessions →
      getSession sessions max_sessions timeout now freshSid =
        .wouldWait (cleanupInactiveSessions sessions now timeout).1) := by
  have hclean : (cleanupInactiveSessions sessions now timeout).1.length ≤
      sessions.length := List.length_filter_le _ _
  refine ⟨?_, ?_, ?_, ?_⟩
  · cases hm : markFirstIdle now (cleanupInactiveSessions sessions now
        timeout).1 with
    | some p =>
        obtain ⟨_, _, _, hlen1⟩ := markFirstIdle_some_spec now _ p.1 p.2
          (by rw [hm])
        rw [getSession_of_found sessions max_sessions timeout now freshSid
          p.1 p.2 (by rw [hm])]
        simp only [GetSessionResult.pool]
        omega
    | none =>
        by_cases hc : (cleanupInactiveSessions sessions now
            timeout).1.length < max_sessions
        · rw [getSession_of_allbusy_create sessions max_sessions timeout now
            freshSid hm hc]
          simp only [GetSessionResult.pool, List.length_append,
            List.length_cons, List.length_nil]
          omega
        · rw [getSession_of_allbusy_full sessions max_sessions timeout now
            freshSid hm hc]
          simp only [GetSessionResult.pool]
          omega
  · intro ⟨s, hs, hbusy⟩
    cases hm : markFirstIdle now (cleanupInactiveSessions sessions now
        timeout).1 with
    | some p =>
        obtain ⟨h1, h2, h3, _⟩ := markFirstIdle_some_spec now _ p.1 p.2
          (by rw [hm])
        exact ⟨p.1, p.2, getSession_of_found sessions max_sessions timeout
          now freshSid p.1 p.2 (by rw [hm]), h1, h2, h3⟩
    | none =>
        have := (markFirstIdle_eq_none_iff now _).mp hm s hs
        rw [this] at hbusy
        exact absurd hbusy (by simp)
  · intro hall hc
    exact getSession_of_allbusy_create sessions max_sessions timeout now
      freshSid ((markFirstIdle_eq_none_iff now _).mpr hall) hc
  · intro hall hc
    exact getSession_of_allbusy_full sessions max_sessions timeout now
      freshSid ((markFirstIdle_eq_none_iff now _).mpr hall) hc

/-- C6 witness: a pool holding one busy session with bound 2 stays within
the bound, and `get_session` creates a second, busy, fresh session. -/
theorem getSession_correct_witness :
    (getSession [⟨1, true, 0⟩] 2 300 100 9).pool.length ≤ 2 ∧
    getSession [⟨1, true, 0⟩] 2 300 100 9 =
      .created ⟨9, true, 100⟩ [⟨1, true, 0⟩, ⟨9, true, 100⟩] :=
  ⟨(getSession_correct [⟨1, true, 0⟩] 2 300 100 9 (by simp)).1,
   by
    have h := (getSession_correct [⟨1, true, 0⟩] 2 300 100 9
      (by simp)).2.2.1 (by decide) (by decide)
    simpa using h⟩

end BrowserUse
